import Mathlib

/-!
Verification of the `add_nfc_id_extra_field` Alembic migration
(`migrations/versions/2026_01_03_1200-a1b2c3d4e5f6_add_nfc_id_extra_field.py`).

The migration manipulates one row of the `setting` table, identified by the
key `extra_fields_spool`.  Its value is a string that `json.loads` either
rejects (malformed) or decodes to a JSON value; `json.dumps` of a decoded
value round-trips.  We therefore model the stored value by its decoding
outcome (`Stored`), the row by `Setting` (decoded value plus the
`last_updated` timestamp, modelled as a `Nat`), and the store state for this
key by `Option Setting` (`none` = no row).

`upgrade` and `downgrade` are translated statement by statement from the
Python source, including its dynamic-typing behaviour:

* `json.loads` failure raises, before any write;
* `any(field.get("key") == "nfc_id" for field in existing_fields)` is a lazy
  scan that short-circuits at the first match and raises `AttributeError` if
  it reaches a non-dict element first (`scanHasNfc`);
* the downgrade list comprehension
  `[field for field in existing_fields if field.get("key") != "nfc_id"]`
  traverses the whole value and raises at any non-dict element
  (`filterNonNfc`);
* iterating a decoded value that is not a list: strings yield their
  one-character strings and dicts yield their keys, both of which lack
  `.get`, so any non-empty string or dict raises; the empty string and the
  empty dict iterate zero times and so produce the empty list in the
  downgrade comprehension, while in the upgrade they fail later at
  `existing_fields.insert(0, nfc_field)` (no `insert` attribute); numbers,
  booleans and `null` are not iterable and raise at once.

Every exception in the source occurs before the `UPDATE`/`INSERT` statement
of its branch, so a raised exception leaves the store untouched; a
`MigResult` records the resulting store and whether an exception escaped.
-/

namespace SpoolmanNFC

/-- A JSON value as decoded by Python's `json.loads`.  Numbers are modelled
as integers (the only number the migration writes is `0`); objects are the
association lists of decoded dicts, which are duplicate-free. -/
inductive JsonVal where
  | null : JsonVal
  | bool : Bool → JsonVal
  | num : Int → JsonVal
  | str : String → JsonVal
  | arr : List JsonVal → JsonVal
  | obj : List (String × JsonVal) → JsonVal

/-- Python `dict.get`: the binding of `k`, or `none` when absent. -/
def dictGet (kvs : List (String × JsonVal)) (k : String) : Option JsonVal :=
  match kvs with
  | [] => none
  | (k', v) :: rest => if k' = k then some v else dictGet rest k

/-- Python `field.get("key") == "nfc_id"` on a `dict.get` result: `None`
and values of any non-string type compare unequal to a string literal. -/
def getIsNfc (v : Option JsonVal) : Bool :=
  match v with
  | some (.str s) => s == "nfc_id"
  | _ => false

/-- The canonical `nfc_field` descriptor literal from the migration. -/
def nfcField : JsonVal :=
  .obj [("key", .str "nfc_id"), ("entity_type", .str "spool"),
        ("name", .str "NFC Tag ID"), ("order", .num 0), ("unit", .null),
        ("field_type", .str "text"), ("default_value", .null),
        ("choices", .null), ("multi_choice", .null)]

/-- The decoding outcome of the stored string value: `json.loads` raises
(`malformed`) or returns a JSON value. -/
inductive Stored where
  | malformed : Stored
  | json : JsonVal → Stored

/-- One row of the `setting` table for the key `extra_fields_spool`. -/
structure Setting where
  value : Stored
  last_updated : Nat

/-- Outcome of running one migration direction: the store afterwards and
whether a Python exception escaped.  All exceptions in the source occur
before the write of their branch, so on `error = true` the store is the
input store. -/
structure MigResult where
  store : Option Setting
  error : Bool

/-- `any(field.get("key") == "nfc_id" for field in existing_fields)`:
short-circuits at the first element whose `"key"` entry equals `"nfc_id"`;
reaching a non-dict element first raises `AttributeError`. -/
def scanHasNfc : List JsonVal → Except Unit Bool
  | [] => .ok false
  | .obj kvs :: rest =>
      if getIsNfc (dictGet kvs "key") then .ok true
      else scanHasNfc rest
  | _ :: _ => .error ()

/-- `[field for field in existing_fields if field.get("key") != "nfc_id"]`:
keeps, in order, the dict elements whose `"key"` entry differs from
`"nfc_id"`; any non-dict element raises `AttributeError`. -/
def filterNonNfc : List JsonVal → Except Unit (List JsonVal)
  | [] => .ok []
  | .obj kvs :: rest =>
      if getIsNfc (dictGet kvs "key") then filterNonNfc rest
      else
        match filterNonNfc rest with
        | .ok tail => .ok (JsonVal.obj kvs :: tail)
        | .error e => .error e
  | _ :: _ => .error ()

/-- `upgrade()`: merge the canonical descriptor into the stored list.
The non-list branches all raise before writing: numbers, booleans and
`null` are not iterable; iterating a non-empty string or dict yields
elements without `.get`; the empty string and the empty dict pass the
`any` scan vacuously but then fail at `.insert(0, nfc_field)`. -/
def upgrade (st : Option Setting) (now : Nat) : MigResult :=
  match st with
  | some s =>
      match s.value with
      | .malformed => ⟨st, true⟩
      | .json v =>
          match v with
          | .arr fields =>
              match scanHasNfc fields with
              | .error _ => ⟨st, true⟩
              | .ok true => ⟨st, false⟩
              | .ok false =>
                  ⟨some ⟨.json (.arr (nfcField :: fields)), now⟩, false⟩
          | _ => ⟨st, true⟩
  | none => ⟨some ⟨.json (.arr [nfcField]), now⟩, false⟩

/-- `downgrade()`: remove every `nfc_id` element from the stored list.
With no row, nothing happens.  With a decoded list, the comprehension
filters it and the result is always written back.  Iterating the empty
string or the empty dict yields no elements, so the comprehension produces
`[]`, which is written back; any other non-list value raises before the
write. -/
def downgrade (st : Option Setting) (now : Nat) : MigResult :=
  match st with
  | some s =>
      match s.value with
      | .malformed => ⟨st, true⟩
      | .json v =>
          match v with
          | .arr fields =>
              match filterNonNfc fields with
              | .error _ => ⟨st, true⟩
              | .ok kept => ⟨some ⟨.json (.arr kept), now⟩, false⟩
          | .str s' =>
              match s'.data with
              | [] => ⟨some ⟨.json (.arr []), now⟩, false⟩
              | _ :: _ => ⟨st, true⟩
          | .obj kvs =>
              match kvs with
              | [] => ⟨some ⟨.json (.arr []), now⟩, false⟩
              | _ :: _ => ⟨st, true⟩
          | _ => ⟨st, true⟩
  | none => ⟨none, false⟩

/-- The stored (decoded) value under the key, ignoring the timestamp. -/
def settingValue (st : Option Setting) : Option Stored :=
  st.map Setting.value

/-- The element is a dict whose `"key"` entry is the string `"nfc_id"`. -/
def hasNfcKey : JsonVal → Bool
  | .obj kvs => getIsNfc (dictGet kvs "key")
  | _ => false

/-- The element is a dict (a decoded JSON object). -/
def isObj : JsonVal → Bool
  | .obj _ => true
  | _ => false

/-- The `"key"` entry of a dict element, if any. -/
def keyOf : JsonVal → Option JsonVal
  | .obj kvs => dictGet kvs "key"
  | _ => none

/-- The element is a dict (a decoded JSON array is a Python list). -/
def isArr : JsonVal → Bool
  | .arr _ => true
  | _ => false

/-- The lazy `any` scan returns `false` exactly when every element is a
dict whose `"key"` entry differs from `"nfc_id"`. -/
theorem scanHasNfc_eq_false_iff (xs : List JsonVal) :
    scanHasNfc xs = .ok false ↔
      ∀ f ∈ xs, isObj f = true ∧ hasNfcKey f = false := by
  induction xs with
  | nil => simp [scanHasNfc]
  | cons f rest ih =>
    cases f with
    | null => simp [scanHasNfc, isObj]
    | bool b => simp [scanHasNfc, isObj]
    | num n => simp [scanHasNfc, isObj]
    | str s => simp [scanHasNfc, isObj]
    | arr ys => simp [scanHasNfc, isObj]
    | obj kvs =>
      by_cases hk : getIsNfc (dictGet kvs "key") = true
      · simp [scanHasNfc, hk, isObj, hasNfcKey]
      · simp only [Bool.not_eq_true] at hk
        simp [scanHasNfc, hk, isObj, hasNfcKey, ih]

/-- With only dict elements the lazy scan cannot raise. -/
theorem scanHasNfc_ok_of_all_obj (xs : List JsonVal)
    (h : ∀ f ∈ xs, isObj f = true) : ∃ b, scanHasNfc xs = .ok b := by
  induction xs with
  | nil => exact ⟨false, rfl⟩
  | cons f rest ih =>
    have hf := h f (List.mem_cons_self f rest)
    have hrest := fun g hg => h g (List.mem_cons_of_mem f hg)
    cases f with
    | obj kvs =>
      by_cases hk : getIsNfc (dictGet kvs "key") = true
      · exact ⟨true, by simp [scanHasNfc, hk]⟩
      · simp only [Bool.not_eq_true] at hk
        obtain ⟨b, hb⟩ := ih hrest
        exact ⟨b, by simp [scanHasNfc, hk, hb]⟩
    | null => simp [isObj] at hf
    | bool b => simp [isObj] at hf
    | num n => simp [isObj] at hf
    | str s => simp [isObj] at hf
    | arr ys => simp [isObj] at hf

/-- On a list of dicts the downgrade comprehension succeeds and is the
filter keeping the non-`nfc_id` elements in order. -/
theorem filterNonNfc_eq_of_all_obj (xs : List JsonVal)
    (h : ∀ f ∈ xs, isObj f = true) :
    filterNonNfc xs = .ok (xs.filter (fun f => ! hasNfcKey f)) := by
  induction xs with
  | nil => simp [filterNonNfc]
  | cons f rest ih =>
    have hf := h f (List.mem_cons_self f rest)
    have hrest := fun g hg => h g (List.mem_cons_of_mem f hg)
    cases f with
    | obj kvs =>
      by_cases hk : getIsNfc (dictGet kvs "key") = true
      · simp [filterNonNfc, hk, ih hrest, List.filter_cons, hasNfcKey]
      · simp only [Bool.not_eq_true] at hk
        simp [filterNonNfc, hk, ih hrest, List.filter_cons, hasNfcKey]
    | null => simp [isObj] at hf
    | bool b => simp [isObj] at hf
    | num n => simp [isObj] at hf
    | str s => simp [isObj] at hf
    | arr ys => simp [isObj] at hf

/-- A successful downgrade comprehension forces every element to be a dict
and the output to be the corresponding filter. -/
theorem filterNonNfc_ok_inv (xs ys : List JsonVal)
    (h : filterNonNfc xs = .ok ys) :
    (∀ f ∈ xs, isObj f = true) ∧
      ys = xs.filter (fun f => ! hasNfcKey f) := by
  induction xs generalizing ys with
  | nil =>
    simp only [filterNonNfc, Except.ok.injEq] at h
    simp [← h]
  | cons f rest ih =>
    cases f with
    | obj kvs =>
      by_cases hk : getIsNfc (dictGet kvs "key") = true
      · simp only [filterNonNfc, hk, if_true] at h
        obtain ⟨hobj, hys⟩ := ih ys h
        refine ⟨?_, ?_⟩
        · intro g hg
          rcases List.mem_cons.mp hg with hg | hg
          · simp [hg, isObj]
          · exact hobj g hg
        · simp [List.filter_cons, hasNfcKey, hk, hys]
      · simp only [Bool.not_eq_true] at hk
        simp only [filterNonNfc, hk, Bool.false_eq_true, if_false] at h
        cases hrest : filterNonNfc rest with
        | error e => rw [hrest] at h; cases h
        | ok tail =>
          rw [hrest] at h
          simp only [Except.ok.injEq] at h
          obtain ⟨hobj, htail⟩ := ih tail hrest
          refine ⟨?_, ?_⟩
          · intro g hg
            rcases List.mem_cons.mp hg with hg | hg
            · simp [hg, isObj]
            · exact hobj g hg
          · simp [← h, List.filter_cons, hasNfcKey, hk, htail]
    | null => simp [filterNonNfc] at h
    | bool b => simp [filterNonNfc] at h
    | num n => simp [filterNonNfc] at h
    | str s => simp [filterNonNfc] at h
    | arr ys' => simp [filterNonNfc] at h

/-- The downgrade comprehension is a fixed point on its own output. -/
theorem filterNonNfc_fixpoint (xs ys : List JsonVal)
    (h : filterNonNfc xs = .ok ys) : filterNonNfc ys = .ok ys := by
  obtain ⟨hobj, hys⟩ := filterNonNfc_ok_inv xs ys h
  have hobj' : ∀ f ∈ ys, isObj f = true := by
    intro f hf
    exact hobj f (List.mem_of_mem_filter (hys ▸ hf))
  rw [filterNonNfc_eq_of_all_obj ys hobj', hys]
  simp [List.filter_filter]

/-- When the scan reports the key absent, the comprehension keeps the whole
list. -/
theorem filterNonNfc_of_scan_false (xs : List JsonVal)
    (h : scanHasNfc xs = .ok false) : filterNonNfc xs = .ok xs := by
  have hall := (scanHasNfc_eq_false_iff xs).mp h
  rw [filterNonNfc_eq_of_all_obj xs (fun f hf => (hall f hf).1)]
  congr 1
  exact List.filter_eq_self.mpr (fun f hf => by simp [(hall f hf).2])

/-- An element that fails the migration's key test does not carry the key
`"nfc_id"` as a string. -/
theorem keyOf_ne_of_not_nfc (f : JsonVal) (h : hasNfcKey f = false) :
    keyOf f ≠ some (.str "nfc_id") := by
  cases f with
  | obj kvs =>
    intro he
    simp only [keyOf] at he
    simp [hasNfcKey, he, getIsNfc] at h
  | null => simp [keyOf]
  | bool b => simp [keyOf]
  | num n => simp [keyOf]
  | str s => simp [keyOf]
  | arr ys => simp [keyOf]

/-- The canonical descriptor satisfies the scan test, so a list starting
with it short-circuits to `true`. -/
theorem scanHasNfc_cons_nfcField (fields : List JsonVal) :
    scanHasNfc (nfcField :: fields) = .ok true := rfl

/-- C1: for every initial store state (row absent, present without an
`nfc_id` element, or present with one — and also every malformed or
non-list state, where the operation aborts), applying the merge
(`upgrade`) twice in sequence leaves the same setting row, hence the same
Field List under `extra_fields_spool`, as applying it once. -/
theorem upgrade_idempotent (st : Option Setting) (t t' : Nat) :
    (upgrade (upgrade st t).store t').store = (upgrade st t).store := by
  cases st with
  | none => rfl
  | some s =>
    obtain ⟨v, u⟩ := s
    cases v with
    | malformed => rfl
    | json w =>
      cases w with
      | arr fields =>
        cases hscan : scanHasNfc fields with
        | error e => simp [upgrade, hscan]
        | ok b =>
          cases b with
          | false => simp [upgrade, hscan, scanHasNfc_cons_nfcField]
          | true => simp [upgrade, hscan]
      | null => rfl
      | bool b => rfl
      | num n => rfl
      | str s' => rfl
      | obj kvs => rfl

/-- C2: for every initial store state, applying the unmerge (`downgrade`)
twice in sequence stores the same Field List as applying it once; and once
no element of the stored list carries the key `nfc_id`, a further unmerge
leaves the stored list unchanged (the code still rewrites the row, value
unchanged, refreshing only the timestamp). -/
theorem downgrade_idempotent (st : Option Setting) (t t' u t₂ : Nat)
    (xs : List JsonVal) (hxs : ∀ f ∈ xs, hasNfcKey f = false) :
    settingValue (downgrade (downgrade st t).store t').store
        = settingValue (downgrade st t).store
      ∧ settingValue (downgrade (some ⟨.json (.arr xs), u⟩) t₂).store
        = some (.json (.arr xs)) := by
  constructor
  · cases st with
    | none => rfl
    | some s =>
      obtain ⟨v, u'⟩ := s
      cases v with
      | malformed => rfl
      | json w =>
        cases w with
        | arr fields =>
          cases hf : filterNonNfc fields with
          | error e => simp [downgrade, hf]
          | ok kept =>
            simp [downgrade, hf, filterNonNfc_fixpoint fields kept hf,
              settingValue]
        | null => rfl
        | bool b => rfl
        | num n => rfl
        | str s' =>
          obtain ⟨data⟩ := s'
          cases data with
          | nil => rfl
          | cons c cs => rfl
        | obj kvs =>
          cases kvs with
          | nil => rfl
          | cons kv kvs' => rfl
  · cases hf : filterNonNfc xs with
    | error e => simp [downgrade, hf, settingValue]
    | ok kept =>
      obtain ⟨hobj, hkept⟩ := filterNonNfc_ok_inv xs kept hf
      have : kept = xs := by
        rw [hkept]
        exact List.filter_eq_self.mpr (fun f hfm => by simp [hxs f hfm])
      simp [downgrade, hf, settingValue, this]

/-- C5: merge on a stored list none of whose (dict) elements carries the
key `nfc_id` writes back exactly the canonical descriptor prepended to the
original list, and merge on an absent row creates the row with exactly the
one-element list. -/
theorem upgrade_inserts_fresh (xs : List JsonVal) (u t : Nat)
    (h : ∀ f ∈ xs, isObj f = true ∧ hasNfcKey f = false) :
    upgrade none t = ⟨some ⟨.json (.arr [nfcField]), t⟩, false⟩
      ∧ upgrade (some ⟨.json (.arr xs), u⟩) t
        = ⟨some ⟨.json (.arr (nfcField :: xs)), t⟩, false⟩ := by
  refine ⟨rfl, ?_⟩
  have hscan : scanHasNfc xs = .ok false := (scanHasNfc_eq_false_iff xs).mpr h
  simp [upgrade, hscan]

/-- C6: unmerge on a stored list of (dict) elements writes back exactly the
elements whose key is not `nfc_id`, unchanged and in their original
relative order — the `List.filter` of the stored list. -/
theorem downgrade_removes_nfc (xs : List JsonVal) (u t : Nat)
    (h : ∀ f ∈ xs, isObj f = true) :
    downgrade (some ⟨.json (.arr xs), u⟩) t
      = ⟨some ⟨.json (.arr (xs.filter (fun f => ! hasNfcKey f))), t⟩,
          false⟩ := by
  simp [downgrade, filterNonNfc_eq_of_all_obj xs h]

/-- C7: unmerge with no row under `extra_fields_spool` leaves the store
completely unchanged: no row is created, nothing is written, no error. -/
theorem downgrade_absent_noop (t : Nat) :
    downgrade none t = ⟨none, false⟩ := rfl

/-- C9: when the stored list already contains an element whose key equals
`nfc_id`, merge performs no store write at all: the row, value and
`last_updated` timestamp included, is exactly the input row. -/
theorem upgrade_present_no_write (xs : List JsonVal) (u t : Nat)
    (h : ∃ f ∈ xs, hasNfcKey f = true) :
    (upgrade (some ⟨.json (.arr xs), u⟩) t).store
      = some ⟨.json (.arr xs), u⟩ := by
  have hne : scanHasNfc xs ≠ .ok false := by
    intro hscan
    obtain ⟨f, hfm, hfk⟩ := h
    have := ((scanHasNfc_eq_false_iff xs).mp hscan f hfm).2
    rw [hfk] at this
    cases this
  cases hscan : scanHasNfc xs with
  | error e => simp [upgrade, hscan]
  | ok b =>
    cases b with
    | false => exact absurd hscan hne
    | true => simp [upgrade, hscan]

/-- A plain unrelated field descriptor used as a concrete test element. -/
def materialField : JsonVal := .obj [("key", .str "material")]

/-- The downgrade comprehension on a list headed by the canonical
descriptor drops that head. -/
theorem filterNonNfc_cons_nfcField (fields : List JsonVal) :
    filterNonNfc (nfcField :: fields) = filterNonNfc fields := rfl

/-- C3 counterexample: on a store whose list already holds the canonical
descriptor in second position, the forward merge is a silent no-op (so its
result is a forward-merge result), but unmerge followed by merge moves the
descriptor to the front: the restored Field List is not the original
forward-merge result. -/
theorem roundtrip_not_restored_cex :
    (upgrade (some ⟨.json (.arr [materialField, nfcField]), 0⟩) 1).error
        = false
    ∧ (upgrade (some ⟨.json (.arr [materialField, nfcField]), 0⟩) 1).store
        = some ⟨.json (.arr [materialField, nfcField]), 0⟩
    ∧ settingValue (upgrade (downgrade
          (upgrade (some ⟨.json (.arr [materialField, nfcField]), 0⟩)
            1).store 2).store 3).store
        ≠ settingValue (upgrade
            (some ⟨.json (.arr [materialField, nfcField]), 0⟩) 1).store := by
  refine ⟨rfl, rfl, ?_⟩
  show some (Stored.json (.arr [nfcField, materialField]))
      ≠ some (Stored.json (.arr [materialField, nfcField]))
  simp [nfcField, materialField]

/-- C3 (amended): for every store state produced by a forward merge that
performed a write (the row was absent, or its list held no `nfc_id`
element), applying unmerge and then merge restores a Field List equal to
the original forward-merge result. -/
theorem merge_unmerge_merge_roundtrip (st : Option Setting) (t₁ t₂ t₃ : Nat)
    (h : (upgrade st t₁).store ≠ st) :
    settingValue (upgrade (downgrade (upgrade st t₁).store t₂).store
        t₃).store
      = settingValue (upgrade st t₁).store := by
  cases st with
  | none => rfl
  | some s =>
    obtain ⟨v, u⟩ := s
    cases v with
    | malformed => exact absurd rfl h
    | json w =>
      cases w with
      | arr fields =>
        cases hscan : scanHasNfc fields with
        | error e => simp [upgrade, hscan] at h
        | ok b =>
          cases b with
          | true => simp [upgrade, hscan] at h
          | false =>
            have h1 : upgrade (some ⟨.json (.arr fields), u⟩) t₁
                = ⟨some ⟨.json (.arr (nfcField :: fields)), t₁⟩, false⟩ := by
              simp [upgrade, hscan]
            have hfil : filterNonNfc (nfcField :: fields) = .ok fields := by
              rw [filterNonNfc_cons_nfcField]
              exact filterNonNfc_of_scan_false fields hscan
            rw [h1]
            simp [downgrade, hfil, upgrade, hscan, settingValue]
      | null => exact absurd rfl h
      | bool b => exact absurd rfl h
      | num n => exact absurd rfl h
      | str s' => exact absurd rfl h
      | obj kvs => exact absurd rfl h

/-- C4 counterexample: the stored value `""` is valid JSON but not a JSON
array, yet unmerge neither fails nor refrains from writing: iterating the
empty string yields no elements, so the comprehension silently coerces the
bad value to the empty list and writes it back. -/
theorem downgrade_coerces_empty_cex :
    isArr (.str "") = false
    ∧ downgrade (some ⟨.json (.str ""), 5⟩) 7
        = ⟨some ⟨.json (.arr []), 7⟩, false⟩ := ⟨rfl, rfl⟩

/-- C4 (amended): for every stored value that is not valid JSON or not a
JSON array, merge fails with an error surfaced to the caller and performs
no write; unmerge also fails without writing, except when the decoded
value is the empty JSON string or the empty JSON object, in which case it
silently overwrites the setting with the empty list. -/
theorem bad_value_aborts (sv : Stored) (u t : Nat)
    (h : sv = .malformed ∨ ∃ w, sv = .json w ∧ isArr w = false) :
    upgrade (some ⟨sv, u⟩) t = ⟨some ⟨sv, u⟩, true⟩
      ∧ (downgrade (some ⟨sv, u⟩) t = ⟨some ⟨sv, u⟩, true⟩
        ∨ ((sv = .json (.str "") ∨ sv = .json (.obj []))
            ∧ downgrade (some ⟨sv, u⟩) t
              = ⟨some ⟨.json (.arr []), t⟩, false⟩)) := by
  rcases h with h | ⟨w, rfl, hw⟩
  · subst h
    exact ⟨rfl, Or.inl rfl⟩
  · cases w with
    | arr fields => simp [isArr] at hw
    | null => exact ⟨rfl, Or.inl rfl⟩
    | bool b => exact ⟨rfl, Or.inl rfl⟩
    | num n => exact ⟨rfl, Or.inl rfl⟩
    | str s =>
      obtain ⟨data⟩ := s
      cases data with
      | nil => exact ⟨rfl, Or.inr ⟨Or.inl rfl, rfl⟩⟩
      | cons c cs => exact ⟨rfl, Or.inl rfl⟩
    | obj kvs =>
      cases kvs with
      | nil => exact ⟨rfl, Or.inr ⟨Or.inr rfl, rfl⟩⟩
      | cons kv kvs' => exact ⟨rfl, Or.inl rfl⟩

/-- C8: on a stored list of dict elements whose `"key"` entries are
pairwise distinct, both the list merge stores and the list unmerge stores
again have pairwise distinct `"key"` entries; in particular merge never
introduces a second `nfc_id` element. -/
theorem keys_nodup_preserved (xs : List JsonVal) (u t : Nat)
    (hobj : ∀ f ∈ xs, isObj f = true)
    (hnodup : (xs.map keyOf).Nodup) :
    (∃ ys u', (upgrade (some ⟨.json (.arr xs), u⟩) t).store
        = some ⟨.json (.arr ys), u'⟩ ∧ (ys.map keyOf).Nodup)
    ∧ (∃ zs u'', (downgrade (some ⟨.json (.arr xs), u⟩) t).store
        = some ⟨.json (.arr zs), u''⟩ ∧ (zs.map keyOf).Nodup) := by
  constructor
  · obtain ⟨b, hb⟩ := scanHasNfc_ok_of_all_obj xs hobj
    cases b with
    | true => exact ⟨xs, u, by simp [upgrade, hb], hnodup⟩
    | false =>
      refine ⟨nfcField :: xs, t, by simp [upgrade, hb], ?_⟩
      rw [List.map_cons, List.nodup_cons]
      refine ⟨?_, hnodup⟩
      intro hmem
      rw [List.mem_map] at hmem
      obtain ⟨f, hfm, hfk⟩ := hmem
      have hfalse := ((scanHasNfc_eq_false_iff xs).mp hb f hfm).2
      have hkey : keyOf nfcField = some (.str "nfc_id") := rfl
      exact keyOf_ne_of_not_nfc f hfalse (hfk.trans hkey)
  · refine ⟨xs.filter (fun f => ! hasNfcKey f), t,
      by simp [downgrade, filterNonNfc_eq_of_all_obj xs hobj], ?_⟩
    exact hnodup.sublist ((List.filter_sublist xs).map keyOf)

/-- C10: presence detection matches solely on the `"key"` attribute: a
dict element with no `"key"` entry is non-matching for the scan and is
preserved by the comprehension, and a stored element whose `"key"` is
`"nfc_id"` but whose other attributes are arbitrary still suppresses
insertion, the row being left exactly as it was. -/
theorem key_only_detection (kvs gkvs : List (String × JsonVal))
    (rest xs tail : List JsonVal) (u t : Nat)
    (hnone : dictGet kvs "key" = none)
    (hg : dictGet gkvs "key" = some (.str "nfc_id"))
    (htail : filterNonNfc rest = .ok tail) :
    scanHasNfc (.obj kvs :: rest) = scanHasNfc rest
    ∧ filterNonNfc (.obj kvs :: rest) = .ok (.obj kvs :: tail)
    ∧ upgrade (some ⟨.json (.arr (.obj gkvs :: xs)), u⟩) t
        = ⟨some ⟨.json (.arr (.obj gkvs :: xs)), u⟩, false⟩ := by
  refine ⟨?_, ?_, ?_⟩
  · simp [scanHasNfc, hnone, getIsNfc]
  · simp [filterNonNfc, hnone, getIsNfc, htail]
  · have hscan : scanHasNfc (.obj gkvs :: xs) = .ok true := by
      simp [scanHasNfc, hg, getIsNfc]
    simp [upgrade, hscan]

/-- Witness for C2 at a concrete store and list. -/
theorem downgrade_idempotent_witness :
    (∀ f ∈ [materialField], hasNfcKey f = false)
    ∧ (settingValue (downgrade
          (downgrade (some ⟨.json (.arr [nfcField]), 0⟩) 1).store 2).store
        = settingValue (downgrade (some ⟨.json (.arr [nfcField]), 0⟩)
            1).store
      ∧ settingValue (downgrade (some ⟨.json (.arr [materialField]), 0⟩)
            3).store
        = some (.json (.arr [materialField]))) := by
  have h : ∀ f ∈ [materialField], hasNfcKey f = false := by
    intro f hf
    rw [List.mem_singleton] at hf
    subst hf
    rfl
  exact ⟨h, downgrade_idempotent (some ⟨.json (.arr [nfcField]), 0⟩) 1 2 0 3
    [materialField] h⟩

/-- Witness for the amended C3 at the absent initial store. -/
theorem merge_unmerge_merge_roundtrip_witness :
    (upgrade none 1).store ≠ none
    ∧ settingValue (upgrade (downgrade (upgrade none 1).store 2).store
          3).store
        = settingValue (upgrade none 1).store := by
  have h : (upgrade none 1).store ≠ none := by simp [upgrade]
  exact ⟨h, merge_unmerge_merge_roundtrip none 1 2 3 h⟩

/-- Witness for the amended C4 at the stored value `null`. -/
theorem bad_value_aborts_witness :
    (Stored.json .null = Stored.malformed
        ∨ ∃ w, Stored.json .null = Stored.json w ∧ isArr w = false)
    ∧ (upgrade (some ⟨.json .null, 0⟩) 1 = ⟨some ⟨.json .null, 0⟩, true⟩
      ∧ (downgrade (some ⟨.json .null, 0⟩) 1
            = ⟨some ⟨.json .null, 0⟩, true⟩
        ∨ ((Stored.json .null = .json (.str "")
              ∨ Stored.json .null = .json (.obj []))
            ∧ downgrade (some ⟨.json .null, 0⟩) 1
              = ⟨some ⟨.json (.arr []), 1⟩, false⟩))) := by
  have h : Stored.json .null = Stored.malformed
      ∨ ∃ w, Stored.json JsonVal.null = Stored.json w ∧ isArr w = false :=
    Or.inr ⟨.null, rfl, rfl⟩
  exact ⟨h, bad_value_aborts (.json .null) 0 1 h⟩

/-- Witness for C5 at a one-element unrelated list. -/
theorem upgrade_inserts_fresh_witness :
    (∀ f ∈ [materialField], isObj f = true ∧ hasNfcKey f = false)
    ∧ (upgrade none 1 = ⟨some ⟨.json (.arr [nfcField]), 1⟩, false⟩
      ∧ upgrade (some ⟨.json (.arr [materialField]), 0⟩) 1
        = ⟨some ⟨.json (.arr (nfcField :: [materialField])), 1⟩, false⟩) := by
  have h : ∀ f ∈ [materialField], isObj f = true ∧ hasNfcKey f = false := by
    intro f hf
    rw [List.mem_singleton] at hf
    subst hf
    exact ⟨rfl, rfl⟩
  exact ⟨h, upgrade_inserts_fresh [materialField] 0 1 h⟩

/-- Witness for C6 at a two-element list holding the descriptor. -/
theorem downgrade_removes_nfc_witness :
    (∀ f ∈ [nfcField, materialField], isObj f = true)
    ∧ downgrade (some ⟨.json (.arr [nfcField, materialField]), 0⟩) 2
        = ⟨some ⟨.json (.arr ([nfcField, materialField].filter
            (fun f => ! hasNfcKey f))), 2⟩, false⟩ := by
  have h : ∀ f ∈ [nfcField, materialField], isObj f = true := by
    intro f hf
    rcases List.mem_cons.mp hf with rfl | hf
    · rfl
    · rw [List.mem_singleton] at hf
      subst hf
      rfl
  exact ⟨h, downgrade_removes_nfc [nfcField, materialField] 0 2 h⟩

/-- Witness for C8 at a one-element unrelated list. -/
theorem keys_nodup_preserved_witness :
    ((∀ f ∈ [materialField], isObj f = true)
      ∧ ([materialField].map keyOf).Nodup)
    ∧ ((∃ ys u',
          (upgrade (some ⟨.json (.arr [materialField]), 0⟩) 1).store
            = some ⟨.json (.arr ys), u'⟩ ∧ (ys.map keyOf).Nodup)
      ∧ (∃ zs u'',
          (downgrade (some ⟨.json (.arr [materialField]), 0⟩) 1).store
            = some ⟨.json (.arr zs), u''⟩ ∧ (zs.map keyOf).Nodup)) := by
  have h1 : ∀ f ∈ [materialField], isObj f = true := by
    intro f hf
    rw [List.mem_singleton] at hf
    subst hf
    rfl
  have h2 : ([materialField].map keyOf).Nodup := by simp
  exact ⟨⟨h1, h2⟩, keys_nodup_preserved [materialField] 0 1 h1 h2⟩

/-- Witness for C9 at a list already holding the descriptor. -/
theorem upgrade_present_no_write_witness :
    (∃ f ∈ [nfcField], hasNfcKey f = true)
    ∧ (upgrade (some ⟨.json (.arr [nfcField]), 4⟩) 9).store
        = some ⟨.json (.arr [nfcField]), 4⟩ := by
  have h : ∃ f ∈ [nfcField], hasNfcKey f = true :=
    ⟨nfcField, List.mem_singleton_self nfcField, rfl⟩
  exact ⟨h, upgrade_present_no_write [nfcField] 4 9 h⟩

/-- Witness for C10: a keyless element, and a non-canonical element keyed
`nfc_id`. -/
theorem key_only_detection_witness :
    (dictGet [("name", JsonVal.str "x")] "key" = none
      ∧ dictGet [("key", JsonVal.str "nfc_id"),
            ("name", JsonVal.str "Custom")] "key" = some (.str "nfc_id")
      ∧ filterNonNfc [] = .ok [])
    ∧ (scanHasNfc [.obj [("name", JsonVal.str "x")]] = scanHasNfc []
      ∧ filterNonNfc [.obj [("name", JsonVal.str "x")]]
          = .ok [.obj [("name", JsonVal.str "x")]]
      ∧ upgrade (some ⟨.json (.arr [.obj [("key", JsonVal.str "nfc_id"),
            ("name", JsonVal.str "Custom")]]), 0⟩) 1
          = ⟨some ⟨.json (.arr [.obj [("key", JsonVal.str "nfc_id"),
              ("name", JsonVal.str "Custom")]]), 0⟩, false⟩) := by
  have h1 : dictGet [("name", JsonVal.str "x")] "key" = none := rfl
  have h2 : dictGet [("key", JsonVal.str "nfc_id"),
      ("name", JsonVal.str "Custom")] "key" = some (.str "nfc_id") := rfl
  have h3 : filterNonNfc [] = .ok [] := rfl
  exact ⟨⟨h1, h2, h3⟩,
    key_only_detection [("name", JsonVal.str "x")]
      [("key", JsonVal.str "nfc_id"), ("name", JsonVal.str "Custom")]
      [] [] [] 0 1 h1 h2 h3⟩

example : upgrade none 3 = ⟨some ⟨.json (.arr [nfcField]), 3⟩, false⟩ := rfl

example :
    upgrade (some ⟨.json (.arr [.obj [("key", .str "material")]]), 0⟩) 2 =
      ⟨some ⟨.json (.arr [nfcField, .obj [("key", .str "material")]]), 2⟩,
        false⟩ := rfl

example :
    downgrade (some ⟨.json (.str ""), 5⟩) 7 =
      ⟨some ⟨.json (.arr []), 7⟩, false⟩ := rfl

example :
    downgrade (some ⟨.json (.arr [nfcField, .obj [("key", .str "material")]]),
        1⟩) 9 =
      ⟨some ⟨.json (.arr [.obj [("key", .str "material")]]), 9⟩, false⟩ := rfl

end SpoolmanNFC
